import Mathlib

/-!
Verification development for the `tools/autorp` test-orchestration harness
(scenario compiler, action translator, log monitors, server controller,
test orchestrator). Python values are shallowly embedded as the inductive
`Obj`; functions from the source are translated one-for-one into
executable Lean definitions, and the spec-level properties are proved
about them.
-/

namespace Samp

/-- Shallow embedding of the Python values that flow through the harness:
`None`, booleans, ints, floats (represented as rationals carrying the
decimal value the source literals denote), strings, lists and
string-keyed dicts (association lists in insertion order). -/
inductive Obj where
  | none : Obj
  | bool : Bool → Obj
  | int : Int → Obj
  | num : Rat → Obj
  | str : String → Obj
  | list : List Obj → Obj
  | dict : List (String × Obj) → Obj

/-- Python truthiness (`bool(x)`): `None`, `False`, zero, empty string and
empty containers are falsy. -/
def pyTruthy : Obj → Bool
  | Obj.none => false
  | Obj.bool b => b
  | Obj.int n => n != 0
  | Obj.num q => q != 0
  | Obj.str s => s != ""
  | Obj.list xs => !xs.isEmpty
  | Obj.dict kvs => !kvs.isEmpty

/-- Python's short-circuit `a or b` on embedded values. -/
def pyOr (a b : Obj) : Obj := if pyTruthy a then a else b

/-- Association-list lookup used for Python `dict` access (first binding
wins, as dicts never hold duplicate keys). -/
def assocGet : List (String × Obj) → String → Option Obj
  | [], _ => Option.none
  | (k, v) :: rest, key => if k = key then some v else assocGet rest key

/-- Python `d.get(key)` — absent keys read as `None`. -/
def dictGet (kvs : List (String × Obj)) (key : String) : Obj :=
  (assocGet kvs key).getD Obj.none

/-- Python `d.get(key, default)`. -/
def dictGetD (kvs : List (String × Obj)) (key : String) (dflt : Obj) : Obj :=
  (assocGet kvs key).getD dflt

/-- Python `key in d`. -/
def dictHas (kvs : List (String × Obj)) (key : String) : Bool :=
  (assocGet kvs key).isSome

/-- `dict.update`: existing keys are overwritten in place, new keys are
appended in order, matching Python dict-merge semantics. -/
def dictUpdate (base upd : List (String × Obj)) : List (String × Obj) :=
  base.map (fun p => (p.1, (assocGet upd p.1).getD p.2))
    ++ upd.filter (fun p => (assocGet base p.1).isNone)

/-- The ASCII whitespace characters matched by Python's `str.strip` and
the regex class `\s` on the ASCII inputs the harness handles. -/
def isSpaceChar (c : Char) : Bool :=
  (c == ' ') || (c == '\t') || (c == '\n') || (c == '\r') || (c == '\x0b') || (c == '\x0c')

/-- Python `str.strip()` at the character-list level. -/
def pyStripChars (l : List Char) : List Char :=
  ((l.dropWhile isSpaceChar).reverse.dropWhile isSpaceChar).reverse

/-- Python `str.strip()`. -/
def pyStrip (s : String) : String := String.mk (pyStripChars s.data)

/-- Python `str.lower()` (ASCII). -/
def pyLower (s : String) : String := String.mk (s.data.map Char.toLower)

/-- Python `str.upper()` (ASCII). -/
def pyUpper (s : String) : String := String.mk (s.data.map Char.toUpper)

/-- Left-pad with zeros to the given width (decimal rendering helper). -/
def padZeros (w : Nat) (s : String) : String :=
  String.mk (List.replicate (w - s.length) '0') ++ s

/-- Python `str(float)` for the decimal values the harness passes around:
integral values print with a trailing `.0`, terminating decimals print
their shortest exact expansion (`str(0.1) = "0.1"`, `str(2.0) = "2.0"`). -/
def pyStrRat (q : Rat) : String :=
  if q.den = 1 then toString q.num ++ ".0"
  else
    match (List.range 40).find? (fun k => (10 ^ (k + 1)) % q.den = 0) with
    | some k0 =>
        let k := k0 + 1
        let sign := if q.num < 0 then "-" else ""
        let scaled := q.num.natAbs * 10 ^ k / q.den
        sign ++ toString (scaled / 10 ^ k) ++ "." ++ padZeros k (toString (scaled % 10 ^ k))
    | Option.none => toString q

/-- The apostrophe character, used by Python `repr` of strings. -/
def quoteChar : Char := Char.ofNat 39

mutual

/-- Python `repr` (element rendering inside containers; string escaping of
exotic characters is not reproduced, the harness only reprs plain text). -/
def pyRepr : Obj → String
  | Obj.none => "None"
  | Obj.bool true => "True"
  | Obj.bool false => "False"
  | Obj.int n => toString n
  | Obj.num q => pyStrRat q
  | Obj.str s => String.singleton quoteChar ++ s ++ String.singleton quoteChar
  | Obj.list xs => "[" ++ pyReprList xs ++ "]"
  | Obj.dict kvs => "\x7b" ++ pyReprKVs kvs ++ "\x7d"

/-- Comma-joined reprs of a list's elements. -/
def pyReprList : List Obj → String
  | [] => ""
  | [x] => pyRepr x
  | x :: rest => pyRepr x ++ ", " ++ pyReprList rest

/-- Comma-joined `key: value` reprs of a dict's entries. -/
def pyReprKVs : List (String × Obj) → String
  | [] => ""
  | [(k, v)] => pyRepr (Obj.str k) ++ ": " ++ pyRepr v
  | (k, v) :: rest => pyRepr (Obj.str k) ++ ": " ++ pyRepr v ++ ", " ++ pyReprKVs rest

end

/-- Python `str(x)`: identical to `repr` except on strings, which print
unquoted. -/
def pyStr : Obj → String
  | Obj.str s => s
  | o => pyRepr o

/-- Python `int(x)`: ints pass through, bools coerce, floats truncate
toward zero, numeric strings parse; anything else is a `TypeError` or
`ValueError`. -/
def pyToInt : Obj → Except String Int
  | Obj.int n => Except.ok n
  | Obj.bool b => Except.ok (if b then 1 else 0)
  | Obj.num q => Except.ok (if q ≥ 0 then q.floor else -((-q).floor))
  | Obj.str s =>
      let t := pyStripChars s.data
      let (sign, digits) :=
        match t with
        | '-' :: rest => ((-1 : Int), rest)
        | '+' :: rest => ((1 : Int), rest)
        | rest => ((1 : Int), rest)
      if digits ≠ [] ∧ digits.all Char.isDigit then
        Except.ok (sign * (Int.ofNat (String.mk digits |>.toNat!)))
      else Except.error "ValueError: invalid literal for int()"
  | _ => Except.error "TypeError: int() argument must be a number or string"

/-- Parse an optionally signed decimal mantissa (`12`, `0.5`, `.5`, `5.`)
into a rational; scientific notation is not used by the harness. -/
def parseDecimal (l : List Char) : Option Rat :=
  let (sign, body) :=
    match l with
    | '-' :: rest => ((-1 : Rat), rest)
    | '+' :: rest => ((1 : Rat), rest)
    | rest => ((1 : Rat), rest)
  let ip := body.takeWhile Char.isDigit
  let rest := body.dropWhile Char.isDigit
  match rest with
  | [] =>
      if ip = [] then Option.none
      else some (sign * ((String.mk ip).toNat! : Rat))
  | '.' :: frac =>
      if frac.all Char.isDigit ∧ (ip ≠ [] ∨ frac ≠ []) then
        some (sign * (((String.mk ip).toNat! : Rat)
          + ((String.mk frac).toNat! : Rat) / (10 ^ frac.length : Nat)))
      else Option.none
  | _ => Option.none

/-- Python `float(x)`: numbers pass through, bools coerce, decimal strings
parse; anything else raises. -/
def pyToFloat : Obj → Except String Rat
  | Obj.int n => Except.ok (n : Rat)
  | Obj.num q => Except.ok q
  | Obj.bool b => Except.ok (if b then 1 else 0)
  | Obj.str s =>
      match parseDecimal (pyStripChars s.data) with
      | some q => Except.ok q
      | Option.none => Except.error "ValueError: could not convert string to float"
  | _ => Except.error "TypeError: float() argument must be a string or a number"

/-! ## `scenario.py`: placeholder substitution (`_replace_placeholders`
and the pattern `\x7b\x7b\s*([a-zA-Z0-9_.-]+)\s*\x7d\x7d`) -/

/-- The identifier class `[a-zA-Z0-9_.-]` of the placeholder pattern. -/
def isIdentChar (c : Char) : Bool :=
  c.isAlpha || c.isDigit || (c == '_') || (c == '.') || (c == '-')

/-- The opening and closing brace characters of a placeholder marker. -/
def braceOpen : Char := Char.ofNat 123

/-- See `braceOpen`. -/
def braceClose : Char := Char.ofNat 125

/-- Try to match the placeholder pattern at the head of the text: two
opening braces, optional whitespace, a nonempty identifier, optional
whitespace, two closing braces. Returns the captured identifier and the
text after the match. Greedy matching is exact here because the space,
identifier and brace character classes are pairwise disjoint. -/
def matchAt (l : List Char) : Option (String × List Char) :=
  match l with
  | c1 :: c2 :: rest =>
      if c1 = braceOpen ∧ c2 = braceOpen then
        let r1 := rest.dropWhile isSpaceChar
        let ident := r1.takeWhile isIdentChar
        let r2 := (r1.dropWhile isIdentChar).dropWhile isSpaceChar
        if ident = [] then Option.none
        else
          match r2 with
          | d1 :: d2 :: rest2 =>
              if d1 = braceClose ∧ d2 = braceClose then some (String.mk ident, rest2)
              else Option.none
          | _ => Option.none
      else Option.none
  | _ => Option.none

theorem length_dropWhile_le (p : Char → Bool) (l : List Char) :
    (l.dropWhile p).length ≤ l.length := by
  induction l with
  | nil => simp
  | cons a l ih =>
      by_cases h : p a
      · simp [List.dropWhile_cons, h]; omega
      · simp [List.dropWhile_cons, h]

theorem matchAt_length {l : List Char} {key : String} {rest : List Char}
    (h : matchAt l = some (key, rest)) : rest.length < l.length := by
  match l with
  | [] => simp [matchAt] at h
  | [c] => simp [matchAt] at h
  | c1 :: c2 :: t =>
      simp only [matchAt] at h
      split at h
      · split at h
        · exact absurd h (by simp)
        · split at h
          · split at h
            · have h2 : rest.length + 2 =
                  (((t.dropWhile isSpaceChar).dropWhile isIdentChar).dropWhile isSpaceChar).length := by
                rename_i heq _
                injection h with h'
                injection h' with hk hr
                subst hr
                rw [heq]; simp
              have h3 := length_dropWhile_le isSpaceChar ((t.dropWhile isSpaceChar).dropWhile isIdentChar)
              have h4 := length_dropWhile_le isIdentChar (t.dropWhile isSpaceChar)
              have h5 := length_dropWhile_le isSpaceChar t
              simp only [List.length_cons]
              omega
            · exact absurd h (by simp)
          · exact absurd h (by simp)
      · exact absurd h (by simp)

/-- The substitution loop of `_PLACEHOLDER_PATTERN.sub`: scan left to
right, replacing each placeholder occurrence with
`str(variables.get(key, ""))` and never rescanning replacement text
(matching `re.sub` semantics). The first argument is recursion fuel — a
match consumes at least one character, so fuel equal to the text length
(as supplied by `substChars`) always suffices and the fuel-exhausted
fallback is unreachable. -/
def substCharsF (vars : List (String × Obj)) : Nat → List Char → List Char
  | 0, l => l
  | _ + 1, [] => []
  | f + 1, c :: cs =>
      match matchAt (c :: cs) with
      | some (key, rest) =>
          (pyStr ((assocGet vars key).getD (Obj.str ""))).data ++ substCharsF vars f rest
      | Option.none => c :: substCharsF vars f cs

/-- See `substCharsF`: the substitution scan with adequate fuel. -/
def substChars (vars : List (String × Obj)) (l : List Char) : List Char :=
  substCharsF vars l.length l

/-- String-level wrapper of the substitution loop. -/
def substString (vars : List (String × Obj)) (s : String) : String :=
  String.mk (substChars vars s.data)

mutual

/-- `_replace_placeholders`: substitute placeholders in every string
value, recursing into dicts and lists (tuples are embedded as lists);
other values pass through unchanged. Dict keys are not substituted. -/
def replacePlaceholders (value : Obj) (vars : List (String × Obj)) : Obj :=
  match value with
  | Obj.str s => Obj.str (substString vars s)
  | Obj.dict kvs => Obj.dict (replacePlaceholdersKVs kvs vars)
  | Obj.list xs => Obj.list (replacePlaceholdersList xs vars)
  | other => other

/-- Substitution mapped over a dict's values. -/
def replacePlaceholdersKVs (kvs : List (String × Obj)) (vars : List (String × Obj)) :
    List (String × Obj) :=
  match kvs with
  | [] => []
  | (k, v) :: rest => (k, replacePlaceholders v vars) :: replacePlaceholdersKVs rest vars

/-- Substitution mapped over a list's elements. -/
def replacePlaceholdersList (xs : List Obj) (vars : List (String × Obj)) : List Obj :=
  match xs with
  | [] => []
  | x :: rest => replacePlaceholders x vars :: replacePlaceholdersList rest vars

end

/-! ## `scenario.py`: macro table and the scenario compiler
(`BotScriptMacro`, `ScenarioCompiler._compile_step`) -/

/-- `BotScriptMacro`: a named reusable snippet of scenario steps with an
ordered parameter list and default argument values. -/
structure MacroDef where
  name : String
  steps : List Obj
  parameters : List String
  defaults : List (String × Obj)

/-- `ScenarioCompiler`: a macro table and a variable table. -/
structure ScenarioCompilerM where
  macros : List (String × MacroDef)
  vars : List (String × Obj)

/-- Macro-table lookup (`self.macros.get(name)`). -/
def macroLookup : List (String × MacroDef) → String → Option MacroDef
  | [], _ => Option.none
  | (k, m) :: rest, key => if k = key then some m else macroLookup rest key

/-- `BotScriptMacro.argument_mapping`: defaults overlaid with named
arguments (dict), positional arguments (list, bound to the parameter list
in order), or a single bare argument bound to the first parameter. -/
def argumentMapping (mac : MacroDef) (args : Obj) : List (String × Obj) :=
  match args with
  | Obj.dict akvs => dictUpdate mac.defaults akvs
  | Obj.list xs =>
      (mac.parameters.zip xs).foldl (fun m pv => dictUpdate m [pv]) mac.defaults
  | Obj.none => mac.defaults
  | other =>
      match mac.parameters with
      | p :: _ => dictUpdate mac.defaults [(p, other)]
      | [] => mac.defaults

/-- The compiler's error taxonomy: `TypeError` for malformed step shapes,
`KeyError` for an unknown macro name, `ValueError` for a recursive macro
cycle or a missing `steps` section, and fuel exhaustion (a model artifact:
every run in the development is given enough fuel). -/
inductive CompileErr where
  | typeErr (msg : String)
  | unknownMacroName (name : String)
  | cycle (name : String)
  | valueErr (msg : String)
  | fuelOut

/-- `ScenarioCompiler._normalise_step`: bare strings become command steps,
dicts pass through, anything else is a `TypeError`. -/
def normaliseStep (step : Obj) : Except CompileErr (List (String × Obj)) :=
  match step with
  | Obj.str s => Except.ok [("type", Obj.str "command"), ("value", Obj.str s)]
  | Obj.dict kvs => Except.ok kvs
  | _ => Except.error (CompileErr.typeErr "Nieobslugiwany typ kroku scenariusza")

/-- Python iteration over the value stored under `steps` (lists iterate
their elements, strings their characters, dicts their keys). -/
def iterSteps (inner : Obj) : Except CompileErr (List Obj) :=
  match inner with
  | Obj.list xs => Except.ok xs
  | Obj.str s => Except.ok (s.data.map (fun ch => Obj.str (String.singleton ch)))
  | Obj.dict kvs => Except.ok (kvs.map (fun p => Obj.str p.1))
  | _ => Except.error (CompileErr.typeErr "steps is not iterable")

mutual

/-- `ScenarioCompiler._compile_step`: dispatch on the step type — macro
invocations expand through `expandMacroDef`, `set_variables` blocks
compile their inner steps against the merged variable scope (the override
does not leak out), and every other step has its placeholders substituted
against the current variables and is returned normalised. The `fuel`
argument bounds recursion depth and only ever decreases across a macro
expansion level, mirroring the source's unbounded recursion. -/
def compileStep (fuel : Nat) (c : ScenarioCompilerM) (step : Obj) (stack : List String) :
    Except CompileErr (List (List (String × Obj))) :=
  match fuel with
  | 0 => Except.error CompileErr.fuelOut
  | f + 1 =>
      match normaliseStep step with
      | Except.error e => Except.error e
      | Except.ok data =>
          let stepType := pyStr (pyOr (dictGet data "type")
            (pyOr (dictGet data "action") (pyOr (dictGet data "macro") (Obj.str "command"))))
          if stepType = "macro" ∨ stepType = "use_macro" ∨ dictHas data "macro" then
            let name := if pyTruthy (dictGet data "name") then pyStr (dictGet data "name")
              else pyStr (dictGet data "macro")
            match macroLookup c.macros name with
            | Option.none => Except.error (CompileErr.unknownMacroName name)
            | some mac =>
                let arguments := pyOr (dictGet data "arguments") (pyOr (dictGet data "args")
                  (pyOr (dictGet data "with") (dictGet data "values")))
                expandMacroDef f c mac arguments stack
          else if stepType = "set_variables" ∨ stepType = "with_variables" then
            let overrides := pyOr (dictGet data "values") (pyOr (dictGet data "variables")
              (pyOr (dictGet data "with") (pyOr (dictGet data "arguments") (Obj.dict []))))
            match overrides with
            | Obj.dict okvs =>
                let merged := dictUpdate c.vars okvs
                match dictGet data "steps" with
                | Obj.none => Except.error (CompileErr.valueErr "Sekcja set_variables wymaga pola steps")
                | inner =>
                    match iterSteps inner with
                    | Except.error e => Except.error e
                    | Except.ok innerSteps =>
                        compileStepList f ⟨c.macros, merged⟩ innerSteps stack
            | _ => Except.error (CompileErr.typeErr "overrides is not a mapping")
          else
            match normaliseStep (replacePlaceholders (Obj.dict data) c.vars) with
            | Except.error e => Except.error e
            | Except.ok kvs => Except.ok [kvs]
termination_by (fuel, 0, 0)

/-- `BotScriptMacro.expand`: fail on a recursive invocation (the macro's
own name is already on the expansion stack), otherwise bind the call
context (enclosing variables overlaid with the argument mapping),
substitute it into each body step and compile them with the macro's name
pushed onto the stack. -/
def expandMacroDef (fuel : Nat) (c : ScenarioCompilerM) (mac : MacroDef) (args : Obj)
    (stack : List String) : Except CompileErr (List (List (String × Obj))) :=
  if mac.name ∈ stack then
    Except.error (CompileErr.cycle mac.name)
  else
    let callContext := dictUpdate c.vars (argumentMapping mac args)
    compileStepList fuel c (mac.steps.map (fun st => replacePlaceholders st callContext))
      (stack ++ [mac.name])
termination_by (fuel, 1, mac.steps.length + 1)

/-- Sequential compilation of a step list, concatenating the results; the
first error aborts the whole compilation with no partial output. -/
def compileStepList (fuel : Nat) (c : ScenarioCompilerM) (steps : List Obj)
    (stack : List String) : Except CompileErr (List (List (String × Obj))) :=
  match steps with
  | [] => Except.ok []
  | st :: rest =>
      match compileStep fuel c st stack with
      | Except.error e => Except.error e
      | Except.ok compiled =>
          match compileStepList fuel c rest stack with
          | Except.error e => Except.error e
          | Except.ok more => Except.ok (compiled ++ more)
termination_by (fuel, 1, steps.length)

end

/-- `ScenarioCompiler.compile`: compile a scenario's raw step list with an
empty expansion stack. -/
def compileScenario (fuel : Nat) (c : ScenarioCompilerM) (steps : List Obj) :
    Except CompileErr (List (List (String × Obj))) :=
  compileStepList fuel c steps []

/-- A scenario step that invokes the named macro, with no arguments. -/
def invStep (m : String) : Obj :=
  Obj.dict [("type", Obj.str "macro"), ("name", Obj.str m)]

/-- A string free of opening braces: placeholder substitution leaves it
untouched. -/
def noBrace (s : String) : Prop := ∀ c ∈ s.data, c ≠ braceOpen

instance (s : String) : Decidable (noBrace s) :=
  inferInstanceAs (Decidable (∀ c ∈ s.data, c ≠ braceOpen))

/-- The macro table binds the name to a macro carrying that same name
(and the name is Python-truthy). -/
def hasMac (c : ScenarioCompilerM) (a : String) : Prop :=
  a ≠ "" ∧ ∃ mac, macroLookup c.macros a = some mac ∧ mac.name = a

/-- One step of the macro call graph: the macro bound to `a` opens its
body with an invocation of the macro bound to `b` (the invoked name being
brace-free, so substitution cannot rewrite it). -/
def linksTo (c : ScenarioCompilerM) (a b : String) : Prop :=
  hasMac c b ∧ noBrace b ∧
    ∃ mac, macroLookup c.macros a = some mac ∧ mac.name = a ∧
      ∃ rest, mac.steps = invStep b :: rest

/-! ## `scenario.py`: command normalisation (`_ensure_leading_slash`,
`ScenarioStep.from_dict`) -/

/-- Python `o == s` for a string literal `s`: only equal strings compare
equal, any other value compares unequal. -/
def objEqStr (o : Obj) (s : String) : Bool :=
  match o with
  | Obj.str t => t == s
  | _ => false

/-- Does the string start with a slash (`str.startswith("/")`)? -/
def startsWithSlash (s : String) : Bool :=
  match s.data with
  | c :: _ => c == '/'
  | [] => false

/-- `_ensure_leading_slash`: strip surrounding whitespace, then prepend a
`/` unless one is already present. -/
def ensureLeadingSlash (command : String) : String :=
  let c := pyStrip command
  if startsWithSlash c then c else "/" ++ c

/-- `ScenarioStep`: normalised representation of a scenario step. The
`type` is kept as an embedded value because the source stores the raw
`data.get("type") or data.get("action") or "command"` result. -/
structure ScenarioStepM where
  type : Obj
  payload : List (String × Obj)

/-- `ScenarioStep.from_dict`: parse a raw step (bare string shorthand or a
structured map) into a normalised step. -/
def scenarioStepFromDict (data : Obj) : Except String ScenarioStepM :=
  match data with
  | Obj.str s =>
      Except.ok ⟨Obj.str "command", [("command", Obj.str (ensureLeadingSlash s))]⟩
  | Obj.dict kvs =>
      let stepType := pyOr (dictGet kvs "type") (pyOr (dictGet kvs "action") (Obj.str "command"))
      if objEqStr stepType "command" then
        let value := pyOr (dictGet kvs "value") (pyOr (dictGet kvs "command") (Obj.str ""))
        Except.ok ⟨stepType, [("command", Obj.str (ensureLeadingSlash (pyStr value)))]⟩
      else if objEqStr stepType "chat" then
        Except.ok ⟨stepType,
          [("message", Obj.str (pyStr (pyOr (dictGet kvs "message") (pyOr (dictGet kvs "value") (Obj.str "")))))]⟩
      else if objEqStr stepType "wait" then
        match pyToFloat (pyOr (dictGet kvs "seconds") (pyOr (dictGet kvs "value") (Obj.num 1))) with
        | Except.ok q => Except.ok ⟨stepType, [("seconds", Obj.num q)]⟩
        | Except.error e => Except.error e
      else if objEqStr stepType "teleport" then
        match pyToFloat (dictGetD kvs "x" (Obj.num 0)), pyToFloat (dictGetD kvs "y" (Obj.num 0)),
              pyToFloat (dictGetD kvs "z" (Obj.num 0)), pyToInt (dictGetD kvs "interior" (Obj.int 0)),
              pyToInt (dictGetD kvs "world" (Obj.int 0)) with
        | Except.ok x, Except.ok y, Except.ok z, Except.ok interior, Except.ok world =>
            Except.ok ⟨stepType,
              [("x", Obj.num x), ("y", Obj.num y), ("z", Obj.num z),
               ("interior", Obj.int interior), ("world", Obj.int world)]⟩
        | _, _, _, _, _ => Except.error "ValueError: teleport coordinates"
      else
        Except.ok ⟨stepType, kvs.filter (fun p => p.1 ≠ "type" ∧ p.1 ≠ "action")⟩
  | _ => Except.error "TypeError: unsupported scenario step type"

/-- `tester.py` `ScriptAction`: a normalised action with a type tag, a
payload map and a derived delay (seconds to pause after dispatch). -/
structure ScriptActionM where
  type : String
  payload : List (String × Obj)
  delay : Rat

/-- `ScriptAction.command`: the payload's `command` entry stringified, or
nothing when absent/`None`. -/
def actionCommand (a : ScriptActionM) : Option String :=
  match dictGet a.payload "command" with
  | Obj.none => Option.none
  | v => some (pyStr v)

/-- `ScriptAction.message`: the payload's `message` entry stringified, or
nothing when absent/`None`. -/
def actionMessage (a : ScriptActionM) : Option String :=
  match dictGet a.payload "message" with
  | Obj.none => Option.none
  | v => some (pyStr v)

/-- `bots.py` `ActionTranslator`: the wire-protocol token table (the field
defaults of the source dataclass). -/
structure ActionTranslatorM where
  chatPrefix : String
  waitToken : String
  teleportToken : String
  keyToken : String
  optionToken : String
  waitForToken : String
  macroToken : String
  typeToken : String
  focusToken : String
  mouseToken : String
  mouseClickToken : String
  screenshotToken : String
  configToken : String

/-- The translator with the source's default token strings. -/
def defaultTranslator : ActionTranslatorM :=
  ⟨"CHAT ", "WAIT", "TELEPORT", "KEY", "OPTION", "WAITFOR", "MACRO", "TYPE",
   "FOCUS", "MOUSE", "MOUSECLICK", "SCREENSHOT", "CONFIG"⟩

/-- `ActionTranslator.translate`: map one normalised action to the ordered
tuple of wire payload strings, raising `ValueError` on a structurally
invalid action (missing key, unknown key state, missing coordinates, …).
Mirrors the source's if-chain branch for branch. -/
def translate (t : ActionTranslatorM) (a : ScriptActionM) : Except String (List String) :=
  if a.type = "chat" ∧ (actionMessage a).isSome then
    Except.ok [t.chatPrefix ++ (actionMessage a).getD ""]
  else if a.type = "wait" then
    Except.ok [t.waitToken ++ ":" ++ pyStrRat a.delay]
  else if a.type = "teleport" then
    match pyToFloat (dictGetD a.payload "x" (Obj.num 0)),
          pyToFloat (dictGetD a.payload "y" (Obj.num 0)),
          pyToFloat (dictGetD a.payload "z" (Obj.num 0)),
          pyToInt (dictGetD a.payload "interior" (Obj.int 0)),
          pyToInt (dictGetD a.payload "world" (Obj.int 0)) with
    | Except.ok x, Except.ok y, Except.ok z, Except.ok interior, Except.ok world =>
        Except.ok [t.teleportToken ++ ":"
          ++ String.intercalate "," ([x, y, z].map pyStrRat)
          ++ ":" ++ toString interior ++ ":" ++ toString world]
    | _, _, _, _, _ => Except.error "ValueError: teleport payload"
  else if a.type = "key" ∨ a.type = "keypress" then
    let key := pyStrip (pyStr (dictGetD a.payload "key" (Obj.str "")))
    if key = "" then Except.error "Brak klawisza do wyslania w akcji keypress"
    else
      let state := pyLower (pyStr (dictGetD a.payload "state" (Obj.str "press")))
      let keyU := pyUpper key
      if state = "press" then
        Except.ok [t.keyToken ++ ":" ++ keyU ++ ":down", t.keyToken ++ ":" ++ keyU ++ ":up"]
      else if state = "down" ∨ state = "hold" then
        Except.ok [t.keyToken ++ ":" ++ keyU ++ ":down"]
      else if state = "up" ∨ state = "release" then
        Except.ok [t.keyToken ++ ":" ++ keyU ++ ":up"]
      else Except.error ("Nieobslugiwany stan klawisza: " ++ state)
  else if a.type = "option" then
    let name := pyStr (dictGetD a.payload "name" (dictGetD a.payload "key" (Obj.str "")))
    if name = "" then Except.error "Opcja klienta wymaga nazwy"
    else Except.ok [t.optionToken ++ ":" ++ name ++ "=" ++ pyStr (dictGet a.payload "value")]
  else if a.type = "sequence" ∨ a.type = "macro" then
    match pyOr (dictGet a.payload "commands") (dictGet a.payload "steps") with
    | Obj.list entries => Except.ok (entries.map pyStr)
    | _ => Except.error "Makro wymaga listy komend"
  else if a.type = "wait_for" then
    let phrase := pyStr (dictGetD a.payload "phrase" (dictGetD a.payload "value" (Obj.str "")))
    match pyToFloat (dictGetD a.payload "timeout" (dictGetD a.payload "seconds" (Obj.num 10))) with
    | Except.ok timeout => Except.ok [t.waitForToken ++ ":" ++ pyStrRat timeout ++ ":" ++ phrase]
    | Except.error e => Except.error e
  else if a.type = "focus_window" then
    let title := dictGet a.payload "title"
    if pyTruthy title then Except.ok [t.focusToken ++ ":" ++ pyStr title]
    else Except.ok [t.focusToken]
  else if a.type = "type_text" then
    match dictGetD a.payload "text" (dictGet a.payload "value") with
    | Obj.none => Except.error "Brak tekstu dla akcji type_text"
    | text => Except.ok [t.typeToken ++ ":" ++ pyStr text]
  else if a.type = "mouse_move" ∨ a.type = "mouse" then
    match dictGet a.payload "x", dictGet a.payload "y" with
    | Obj.none, _ => Except.error "Akcja mouse_move wymaga wspolrzednych x i y"
    | _, Obj.none => Except.error "Akcja mouse_move wymaga wspolrzednych x i y"
    | xo, yo =>
        let mode := pyStr (dictGetD a.payload "mode" (Obj.str "absolute"))
        match pyToFloat xo, pyToFloat yo,
              pyToFloat (dictGetD a.payload "duration" (Obj.num 0)) with
        | Except.ok x, Except.ok y, Except.ok duration =>
            Except.ok [t.mouseToken ++ ":" ++ mode ++ ":" ++ pyStrRat x ++ ":" ++ pyStrRat y
              ++ ":" ++ pyStrRat duration]
        | _, _, _ => Except.error "ValueError: mouse_move payload"
  else if a.type = "mouse_click" ∨ a.type = "click" then
    let button := pyStr (dictGetD a.payload "button" (Obj.str "left"))
    let actionMode := pyStr (dictGetD a.payload "state" (dictGetD a.payload "mode" (Obj.str "click")))
    Except.ok [t.mouseClickToken ++ ":" ++ button ++ ":" ++ actionMode]
  else if a.type = "screenshot" then
    let name := pyStr (dictGetD a.payload "name" (Obj.str "capture"))
    let target := pyOr (dictGet a.payload "path") (dictGet a.payload "directory")
    if pyTruthy target then Except.ok [t.screenshotToken ++ ":" ++ name ++ ":" ++ pyStr target]
    else Except.ok [t.screenshotToken ++ ":" ++ name]
  else if a.type = "config" then
    let name := pyStr (dictGetD a.payload "name" (dictGetD a.payload "key" (Obj.str "")))
    if name = "" then Except.error "Akcja config wymaga nazwy parametru"
    else Except.ok [t.configToken ++ ":" ++ name ++ "=" ++ pyStr (dictGet a.payload "value")]
  else
    let command := pyOr (match actionCommand a with
      | some c => Obj.str c
      | Option.none => Obj.none) (dictGet a.payload "value")
    match command with
    | Obj.none => Except.ok ["ACTION:" ++ a.type]
    | v => Except.ok [pyStr v]

/-- `ScenarioStep.to_command`: render a normalised step as its wire
command string. -/
def scenarioStepToCommand (step : ScenarioStepM) : String :=
  if objEqStr step.type "command" then pyStr (dictGetD step.payload "command" (Obj.str ""))
  else if objEqStr step.type "chat" then "CHAT:" ++ pyStr (dictGetD step.payload "message" (Obj.str ""))
  else if objEqStr step.type "wait" then "WAIT:" ++ pyStr (dictGetD step.payload "seconds" (Obj.int 1))
  else if objEqStr step.type "teleport" then
    "TELEPORT:" ++ String.intercalate ","
      (["x", "y", "z"].map (fun axis => pyStr (dictGetD step.payload axis (Obj.int 0))))
  else "ACTION:" ++ pyStr step.type

/-! ## `tester.py`: `BotScript` serialisation (`to_json` / `from_json`).
The spec scopes on-disk JSON encoding to an external collaborator
(`json.dumps`/`json.loads` are mutually inverse on JSON-representable
values), so serialisation is embedded at the JSON-value level: `to_json`
builds the object payload the source passes to `json.dumps`, and
`from_json` consumes the object `json.loads` yields back. -/

/-- `BotScript`: description, flat command list, flat action-payload
list. -/
structure BotScriptM where
  description : String
  commands : List String
  actions : List (List (String × Obj))

/-- `BotScript.to_json`: the serialised object payload
(`description` string, `commands` as a list, `actions` as a list of
copied dicts). -/
def botScriptToJson (s : BotScriptM) : Obj :=
  Obj.dict
    [("description", Obj.str s.description),
     ("commands", Obj.list (s.commands.map Obj.str)),
     ("actions", Obj.list (s.actions.map Obj.dict))]

/-- Read a JSON array of strings back into a command tuple. -/
def objAsStrList : Obj → Option (List String)
  | Obj.list xs =>
      xs.mapM (fun o => match o with
        | Obj.str s => some s
        | _ => Option.none)
  | _ => Option.none

/-- Read a JSON array of objects back into an action-payload tuple. -/
def objAsDictList : Obj → Option (List (List (String × Obj)))
  | Obj.list xs =>
      xs.mapM (fun o => match o with
        | Obj.dict kvs => some kvs
        | _ => Option.none)
  | _ => Option.none

/-- `BotScript.from_json`: rebuild the script from the parsed payload
(`data.get("description", "")`, `tuple(data.get("commands", ()) or ())`,
`tuple(data.get("actions", ()) or ())`); a payload that is not the
expected shape has no denotation in the typed record. -/
def botScriptFromJson (payload : Obj) : Option BotScriptM :=
  match payload with
  | Obj.dict data =>
      match dictGetD data "description" (Obj.str ""),
            objAsStrList (pyOr (dictGetD data "commands" (Obj.list [])) (Obj.list [])),
            objAsDictList (pyOr (dictGetD data "actions" (Obj.list [])) (Obj.list [])) with
      | Obj.str d, some cs, some acts => some ⟨d, cs, acts⟩
      | _, _, _ => Option.none
  | _ => Option.none

/-! ## `tester.py`: `SampServerController.stop` / `SampServerController.running`.
The process side effects are embedded as an explicit state (is a process
attached, has it already exited, does graceful termination time out) plus
an event trace; the `@contextmanager` `try`/`finally` becomes explicit
branching over the three ways the managed block can exit after `start()`. -/

/-- Observable behaviour of the attached server process: whether `poll()`
already reports an exit, and whether `wait(timeout=5)` after `terminate()`
raises `TimeoutExpired`. -/
structure ProcStateM where
  pollFinished : Bool
  waitTimesOut : Bool

/-- The controller's process slot (`self._process`). -/
structure ControllerStateM where
  process : Option ProcStateM

/-- Process-control side effects issued by `stop()`. -/
inductive StopEv where
  | terminate : StopEv
  | kill : StopEv

/-- `SampServerController.stop`: return immediately when no process is
attached; otherwise terminate a still-running process, escalate to `kill`
if the grace wait times out, and clear the process slot. -/
def stopModel (s : ControllerStateM) : List StopEv × ControllerStateM :=
  match s.process with
  | Option.none => ([], ⟨Option.none⟩)
  | some p =>
      if p.pollFinished then ([], ⟨Option.none⟩)
      else (StopEv.terminate :: (if p.waitTimesOut then [StopEv.kill] else []), ⟨Option.none⟩)

/-- How one execution of the `running(...)` block exits. -/
inductive RunExit where
  | ok : RunExit
  | timeout : RunExit
  | readyError (e : String) : RunExit
  | bodyError (e : String) : RunExit

/-- Outcome of `SampServerController.running`: the exit classification,
how many times `stop()` ran on the taken path, the process-control events
it issued, and the final controller state. -/
structure RunningOutcome where
  exit : RunExit
  stopCalls : Nat
  stopEvents : List StopEv
  final : ControllerStateM

/-- `SampServerController.running` after a successful `start()`: check
readiness (which may raise, or report a timeout that is re-raised as
`TimeoutError`), run the block body (which may raise), and in every case
run the `finally: self.stop()` clause exactly once. -/
def runningModel (s : ControllerStateM) (ready : Except String Bool)
    (body : Except String Unit) : RunningOutcome :=
  match ready with
  | Except.error e => ⟨RunExit.readyError e, 1, (stopModel s).1, (stopModel s).2⟩
  | Except.ok false => ⟨RunExit.timeout, 1, (stopModel s).1, (stopModel s).2⟩
  | Except.ok true =>
      match body with
      | Except.error e => ⟨RunExit.bodyError e, 1, (stopModel s).1, (stopModel s).2⟩
      | Except.ok _ => ⟨RunExit.ok, 1, (stopModel s).1, (stopModel s).2⟩

/-! ## Spec-modelled components.
The checked-in `tester.py`/`bots.py` are older revisions: the retrying
suite runner, the occurrence-counting log wait, the per-client failure
capture and the `key_combo` translation are exercised by the repository's
tests and callers (`tests/test_bot_framework.py`, `cli.py`, `config.py`)
but their implementations are not among the sources. They are modelled
here from the spec's wording. -/

/-- Non-overlapping substring counting (`str.count`) with a fixed
nonempty pattern: scan left to right, skipping past each match. The
first argument is recursion fuel — every step consumes at least one
character, so fuel equal to the text length (as supplied by `countOcc`)
always suffices. -/
def countFromF (p : Char) (pr : List Char) : Nat → List Char → Nat
  | 0, _ => 0
  | _ + 1, [] => 0
  | f + 1, c :: cs =>
      if (p :: pr).isPrefixOf (c :: cs) then 1 + countFromF p pr f (cs.drop pr.length)
      else countFromF p pr f cs

/-- Python `content.count(phrase)` (an empty pattern counts every gap). -/
def countOcc (pat l : List Char) : Nat :=
  match pat with
  | [] => l.length + 1
  | p :: pr => countFromF p pr l.length l

/-- Modelled from the spec: the occurrence-counting `wait_for` of the log
monitors (`wait_for(phrase, …, occurrences)` / `wait_for_expectation`,
substring form) is absent from the checked-in `tester.py`. Each poll of
the loop observes the file content current at that time; the loop
examines only the slice appended since the last read-cursor position,
adds its match count to the cumulative total, advances the cursor to the
current end of file, and succeeds as soon as the cumulative count reaches
the required occurrences; when the deadline (the end of the snapshot
sequence) passes first, the partial count is reported with a
non-match. Case-insensitive matching lower-cases phrase and content. -/
def waitForOccGo (phrase : List Char) (caseSensitive : Bool) (occ : Nat) :
    Nat → Nat → List (List Char) → Bool × Nat
  | _, acc, [] => (false, acc)
  | offset, acc, content :: rest =>
      let seg := content.drop offset
      let cnt :=
        if caseSensitive then countOcc phrase seg
        else countOcc (phrase.map Char.toLower) (seg.map Char.toLower)
      let acc2 := acc + cnt
      if occ ≤ acc2 then (true, acc2)
      else waitForOccGo phrase caseSensitive occ content.length acc2 rest

/-- See `waitForOccGo`: run the poll loop from a cursor position (the
`mark()` checkpoint) with a zero initial count. -/
def waitForOcc (phrase : List Char) (caseSensitive : Bool) (occ : Nat) (offset : Nat)
    (snapshots : List (List Char)) : Bool × Nat :=
  waitForOccGo phrase caseSensitive occ offset 0 snapshots

/-- Modelled from the spec: the `key_combo` branch of
`ActionTranslator.translate` is absent from the checked-in `bots.py`.
Each key is pressed down in list order, an optional hold wait follows,
and the keys are released in the reverse of press order. -/
def translateKeyCombo (t : ActionTranslatorM) (keys : List String) (hold : Option Rat) :
    List String :=
  keys.map (fun k => t.keyToken ++ ":" ++ pyUpper k ++ ":down")
    ++ (match hold with
        | some h => [t.waitToken ++ ":" ++ pyStrRat h]
        | Option.none => [])
    ++ keys.reverse.map (fun k => t.keyToken ++ ":" ++ pyUpper k ++ ":up")

/-- Behaviour of one selected client during a run: its name and what its
`execute_script` does (raise, return no log, or return a playback log,
identified here by a number). -/
structure ClientBehaviorM where
  name : String
  execResult : Except String (Option Nat)

/-- Client lifecycle events observed during a run. -/
inductive ClientEv where
  | connect (n : String) : ClientEv
  | disconnect (n : String) : ClientEv

/-- Per-client result: the client's name and its log-or-null. -/
structure ClientRunResultM where
  clientName : String
  log : Option Nat

/-- A structured run failure (`category`, `subject`, `message`). -/
structure RunFailureM where
  category : String
  subject : String
  message : String

/-- The failure entry recorded for one client's behaviour, if any. -/
def clientFailure (cl : ClientBehaviorM) : Option RunFailureM :=
  match cl.execResult with
  | Except.error msg => some ⟨"client", cl.name, msg⟩
  | Except.ok Option.none => some ⟨"client", cl.name, "execute_script returned no log"⟩
  | Except.ok (some _) => Option.none

/-- Modelled from the spec: the failure-capturing per-client loop of
`TestOrchestrator._run_on_clients` (the checked-in revision lets a
client's exception propagate and records no structured failure). Each
selected client in turn is connected, executed and disconnected; an
`execute_script` that raises or returns null is captured as a run failure
of category `client` for that client, and the loop continues with the
remaining clients. -/
def runOnClientsM :
    List ClientBehaviorM → List ClientRunResultM × List RunFailureM × List ClientEv
  | [] => ([], [], [])
  | cl :: rest =>
      let log : Option Nat :=
        match cl.execResult with
        | Except.error _ => Option.none
        | Except.ok l => l
      let (results, moreFailures, evs) := runOnClientsM rest
      (⟨cl.name, log⟩ :: results,
       (clientFailure cl).toList ++ moreFailures,
       ClientEv.connect cl.name :: ClientEv.disconnect cl.name :: evs)

/-- One suite entry (`BotRunContext`): the script it runs (by
description), its iteration count, retry budget, grace period, waits and
flags. -/
structure SuiteCtxM where
  script : String
  iterations : Nat
  maxRetries : Nat
  gracePeriod : Rat
  waitBefore : Rat
  waitAfter : Rat
  failFast : Bool
  enabled : Bool

/-- One attempt's `TestRunResult`: which script ran, in which iteration,
tagged with its attempt index, and whether the attempt was successful. -/
structure AttemptResultM where
  script : String
  iterationIndex : Nat
  attemptIndex : Nat
  success : Bool

/-- Timing and execution events of the suite runner. -/
inductive SuiteEv where
  | sleepBefore (q : Rat) : SuiteEv
  | sleepAfter (q : Rat) : SuiteEv
  | sleepGrace (q : Rat) : SuiteEv
  | attemptRun (script : String) (iteration attempt : Nat) : SuiteEv

/-- Modelled from the spec: the retry loop of `TestOrchestrator.run_suite`
(the checked-in revision has no `max_retries`). Run once; while the
attempt is unsuccessful and retries remain, sleep `grace_period` and
re-run with the next attempt index; every attempt is recorded as a
separate result. The outcome oracle maps an attempt index to that
attempt's success. -/
def retryAttempts (script : String) (iterIdx : Nat) (grace : Rat) (outcome : Nat → Bool) :
    Nat → Nat → List AttemptResultM × List SuiteEv
  | attempt, 0 =>
      ([⟨script, iterIdx, attempt, outcome attempt⟩],
       [SuiteEv.attemptRun script iterIdx attempt])
  | attempt, r + 1 =>
      let ok := outcome attempt
      let res : AttemptResultM := ⟨script, iterIdx, attempt, ok⟩
      let ev := SuiteEv.attemptRun script iterIdx attempt
      if ok then ([res], [ev])
      else
        let (more, evs) := retryAttempts script iterIdx grace outcome (attempt + 1) r
        (res :: more, ev :: SuiteEv.sleepGrace grace :: evs)

/-- Modelled from the spec: the iteration loop of `run_suite` — run the
retry loop once per iteration, sleeping `wait_after` between iterations
(not after the last); with `fail_fast` set, a final attempt that still
fails aborts the suite. -/
def runIters (ctx : SuiteCtxM) (outcome : Nat → Nat → Bool) (iterIdx : Nat) :
    Nat → List AttemptResultM × List SuiteEv × Bool
  | 0 => ([], [], false)
  | n + 1 =>
      let (results, evs) :=
        retryAttempts ctx.script iterIdx ctx.gracePeriod (outcome iterIdx) 1 ctx.maxRetries
      let lastFailed :=
        match results.getLast? with
        | some r => !r.success
        | Option.none => false
      if ctx.failFast && lastFailed then (results, evs, true)
      else if n = 0 then (results, evs, false)
      else
        let (more, evs2, aborted) := runIters ctx outcome (iterIdx + 1) n
        (results ++ more,
         evs ++ (if ctx.waitAfter > 0 then [SuiteEv.sleepAfter ctx.waitAfter] else []) ++ evs2,
         aborted)

/-- Modelled from the spec: one context's share of `run_suite` —
`wait_before` once before the first iteration, then the iteration loop
(`max(1, iterations)` iterations). -/
def runCtxM (ctx : SuiteCtxM) (outcome : Nat → Nat → Bool) :
    List AttemptResultM × List SuiteEv × Bool :=
  let (results, evs, aborted) := runIters ctx outcome 0 (max 1 ctx.iterations)
  (results,
   (if ctx.waitBefore > 0 then [SuiteEv.sleepBefore ctx.waitBefore] else []) ++ evs,
   aborted)

/-- Modelled from the spec: `TestOrchestrator.run_suite` over a list of
contexts, each paired with its outcome oracle (iteration index → attempt
index → success). Disabled contexts are skipped entirely; a fail-fast
abort stops the suite with only the already-collected results. -/
def runSuiteM : List (SuiteCtxM × (Nat → Nat → Bool)) → List AttemptResultM × List SuiteEv
  | [] => ([], [])
  | (ctx, outcome) :: rest =>
      if ctx.enabled then
        let (results, evs, aborted) := runCtxM ctx outcome
        if aborted then (results, evs)
        else
          let (more, evs2) := runSuiteM rest
          (results ++ more, evs ++ evs2)
      else runSuiteM rest

/-! ## Theorems -/

/-- C3: translating a `key_combo` action presses each key down in list
order, emits the optional hold wait, and releases the keys in the reverse
of press order; with keys `[ctrl, s]` and hold `0.1` the payloads are
exactly down(ctrl), down(s), wait(0.1), up(s), up(ctrl), in that order. -/
theorem key_combo_translation :
    (∀ (t : ActionTranslatorM) (keys : List String) (hold : Option Rat),
      translateKeyCombo t keys hold
        = keys.map (fun k => t.keyToken ++ ":" ++ pyUpper k ++ ":down")
          ++ (match hold with
              | some h => [t.waitToken ++ ":" ++ pyStrRat h]
              | Option.none => [])
          ++ (keys.map (fun k => t.keyToken ++ ":" ++ pyUpper k ++ ":up")).reverse)
    ∧ translateKeyCombo defaultTranslator ["ctrl", "s"] (some (mkRat 1 10))
        = ["KEY:CTRL:down", "KEY:S:down", "WAIT:0.1", "KEY:S:up", "KEY:CTRL:up"] := by
  constructor
  · intro t keys hold
    simp [translateKeyCombo, List.map_reverse]
  · decide

/-- C7: `SampServerController.running` invokes `stop()` exactly once on
every exit path after `start()` — normal completion, readiness timeout
(re-raised as `TimeoutError`), an exception from the readiness check, and
an exception from the block body — leaving no process attached; and
`stop()` is idempotent and safe to call when no process is running. -/
theorem running_stop_guaranteed (s : ControllerStateM) (ready : Except String Bool)
    (body : Except String Unit) :
    (runningModel s ready body).stopCalls = 1
    ∧ (runningModel s ready body).stopEvents = (stopModel s).1
    ∧ (runningModel s ready body).final = (stopModel s).2
    ∧ (runningModel s ready body).final.process = Option.none
    ∧ (ready = Except.ok false → (runningModel s ready body).exit = RunExit.timeout)
    ∧ (∀ e, ready = Except.error e → (runningModel s ready body).exit = RunExit.readyError e)
    ∧ (∀ e, ready = Except.ok true → body = Except.error e →
        (runningModel s ready body).exit = RunExit.bodyError e)
    ∧ (ready = Except.ok true → body = Except.ok () →
        (runningModel s ready body).exit = RunExit.ok)
    ∧ stopModel (runningModel s ready body).final = ([], (runningModel s ready body).final)
    ∧ stopModel ⟨Option.none⟩ = ([], ⟨Option.none⟩) := by
  have hstop2 : ∀ s' : ControllerStateM, (stopModel s').2 = ⟨Option.none⟩ := by
    intro s'
    cases s' with
    | mk process =>
        cases process with
        | none => rfl
        | some p => by_cases hp : p.pollFinished <;> simp [stopModel, hp]
  have hid : stopModel (⟨Option.none⟩ : ControllerStateM) = ([], ⟨Option.none⟩) := rfl
  cases ready with
  | error e =>
      refine ⟨rfl, rfl, rfl, ?_, ?_, ?_, ?_, ?_, ?_, rfl⟩
      · simp [runningModel, hstop2 s]
      · intro h; exact absurd h (by simp)
      · intro e2 h; injection h with h; subst h; rfl
      · intro e2 h; exact absurd h (by simp)
      · intro h; exact absurd h (by simp)
      · show stopModel (stopModel s).2 = ([], (stopModel s).2)
        rw [hstop2 s]; rfl
  | ok b =>
      cases b with
      | false =>
          refine ⟨rfl, rfl, rfl, ?_, ?_, ?_, ?_, ?_, ?_, rfl⟩
          · simp [runningModel, hstop2 s]
          · intro h; rfl
          · intro e2 h; exact absurd h (by simp)
          · intro e2 h; exact absurd (Except.ok.inj h) (by simp)
          · intro h; exact absurd (Except.ok.inj h) (by simp)
          · show stopModel (stopModel s).2 = ([], (stopModel s).2)
            rw [hstop2 s]; rfl
      | true =>
          cases body with
          | error e =>
              refine ⟨rfl, rfl, rfl, ?_, ?_, ?_, ?_, ?_, ?_, rfl⟩
              · simp [runningModel, hstop2 s]
              · intro h; exact absurd (Except.ok.inj h) (by simp)
              · intro e2 h; exact absurd h (by simp)
              · intro e2 _ h; injection h with h; subst h; rfl
              · intro _ h; exact absurd h (by simp)
              · show stopModel (stopModel s).2 = ([], (stopModel s).2)
                rw [hstop2 s]; rfl
          | ok u =>
              cases u
              refine ⟨rfl, rfl, rfl, ?_, ?_, ?_, ?_, ?_, ?_, rfl⟩
              · simp [runningModel, hstop2 s]
              · intro h; exact absurd (Except.ok.inj h) (by simp)
              · intro e2 h; exact absurd h (by simp)
              · intro e2 _ h; exact absurd h (by simp)
              · intro _ _; rfl
              · show stopModel (stopModel s).2 = ([], (stopModel s).2)
                rw [hstop2 s]; rfl

/-- C7 witness: a readiness timeout on a controller with a live process
still ends with `stop()` run, the process slot cleared and a
`TimeoutError` exit. -/
theorem running_stop_guaranteed_witness :
    (runningModel ⟨some ⟨false, false⟩⟩ (Except.ok false) (Except.ok ())).exit = RunExit.timeout
    ∧ (runningModel ⟨some ⟨false, false⟩⟩ (Except.ok false) (Except.ok ())).final.process
        = Option.none := by
  have h := running_stop_guaranteed ⟨some ⟨false, false⟩⟩ (Except.ok false) (Except.ok ())
  exact ⟨h.2.2.2.2.1 rfl, h.2.2.2.1⟩

/-- C9 helper: a JSON string array reads back as the string list it was
built from. -/
theorem objAsStrList_map (cs : List String) :
    objAsStrList (Obj.list (cs.map Obj.str)) = some cs := by
  induction cs with
  | nil => rfl
  | cons c rest ih =>
      simp only [objAsStrList, List.map_cons, List.mapM_cons] at ih ⊢
      simp only [Option.pure_def, Option.bind_eq_bind, Option.bind_some] at ih ⊢
      cases h : (rest.map Obj.str).mapM (fun o => match o with
        | Obj.str s => some s
        | _ => Option.none) with
      | none => rw [h] at ih; simp at ih
      | some l => rw [h] at ih; simp at ih; simp [h, ih]

/-- C9 helper: a JSON array of objects reads back as the dict list it was
built from. -/
theorem objAsDictList_map (acts : List (List (String × Obj))) :
    objAsDictList (Obj.list (acts.map Obj.dict)) = some acts := by
  induction acts with
  | nil => rfl
  | cons a rest ih =>
      simp only [objAsDictList, List.map_cons, List.mapM_cons] at ih ⊢
      simp only [Option.pure_def, Option.bind_eq_bind, Option.bind_some] at ih ⊢
      cases h : (rest.map Obj.dict).mapM (fun o => match o with
        | Obj.dict kvs => some kvs
        | _ => Option.none) with
      | none => rw [h] at ih; simp at ih
      | some l => rw [h] at ih; simp at ih; simp [h, ih]

/-- C9 helper: `x or ()` leaves a list value unchanged (an empty list is
replaced by the empty default). -/
theorem pyOr_list_empty (xs : List Obj) :
    pyOr (Obj.list xs) (Obj.list []) = Obj.list xs := by
  cases xs <;> simp [pyOr, pyTruthy]

/-- C9: serialising a `BotScript` with `to_json` and re-parsing the
result reproduces the same description, command list and action list. -/
theorem botscript_roundtrip (s : BotScriptM) :
    botScriptFromJson (botScriptToJson s) = some s := by
  cases s with
  | mk d cs acts =>
      simp only [botScriptToJson, botScriptFromJson, dictGetD, assocGet]
      simp only [if_pos rfl, if_neg (by decide : ¬ ("description" = "commands")),
        if_neg (by decide : ¬ ("description" = "actions")),
        if_neg (by decide : ¬ ("commands" = "actions"))]
      simp [pyOr_list_empty, objAsStrList_map, objAsDictList_map]

/-- C10: every command-kind step — a bare string step, or a map of type
`command` — normalises its command text by stripping surrounding
whitespace and prepending a leading `/` when absent; a (stripped) command
already starting with `/` is left unchanged. -/
theorem command_step_normalisation :
    (∀ s : String, startsWithSlash (pyStrip s) = true → ensureLeadingSlash s = pyStrip s)
    ∧ (∀ s : String, startsWithSlash (pyStrip s) = false →
        ensureLeadingSlash s = "/" ++ pyStrip s)
    ∧ (∀ s : String, scenarioStepFromDict (Obj.str s)
        = Except.ok ⟨Obj.str "command", [("command", Obj.str (ensureLeadingSlash s))]⟩)
    ∧ (∀ (kvs : List (String × Obj)) (v : Obj),
        dictGet kvs "type" = Obj.str "command" → dictGet kvs "value" = v →
        pyTruthy v = true →
        scenarioStepFromDict (Obj.dict kvs)
          = Except.ok ⟨Obj.str "command", [("command", Obj.str (ensureLeadingSlash (pyStr v)))]⟩)
    ∧ (∀ step : ScenarioStepM, step.type = Obj.str "command" →
        scenarioStepToCommand step = pyStr (dictGetD step.payload "command" (Obj.str ""))) := by
  refine ⟨?_, ?_, ?_, ?_, ?_⟩
  · intro s h; simp [ensureLeadingSlash, h]
  · intro s h; simp [ensureLeadingSlash, h]
  · intro s; rfl
  · intro kvs v htype hvalue htrue
    simp only [scenarioStepFromDict, htype]
    have h1 : pyOr (Obj.str "command") (pyOr (dictGet kvs "action") (Obj.str "command"))
        = Obj.str "command" := by simp [pyOr, pyTruthy]
    have h2 : pyOr (dictGet kvs "value") (pyOr (dictGet kvs "command") (Obj.str "")) = v := by
      rw [hvalue]; simp [pyOr, htrue]
    rw [h1, h2]
    simp [objEqStr]
  · intro step h; simp [scenarioStepToCommand, h, objEqStr]

/-- C10 witness: the bare string step `wave` compiles to the wire command
`/wave`, and a stripped command that already carries the slash is kept. -/
theorem command_step_normalisation_witness :
    scenarioStepFromDict (Obj.str "wave")
      = Except.ok ⟨Obj.str "command", [("command", Obj.str "/wave")]⟩
    ∧ ensureLeadingSlash " /ok " = "/ok"
    ∧ scenarioStepFromDict (Obj.dict [("type", Obj.str "command"), ("value", Obj.str "wave")])
      = Except.ok ⟨Obj.str "command", [("command", Obj.str "/wave")]⟩ := by
  have h := command_step_normalisation
  refine ⟨?_, ?_, ?_⟩
  · exact (h.2.2.1 "wave").trans (by rfl)
  · exact (h.1 " /ok " (by decide)).trans (by decide)
  · exact (h.2.2.2.1 [("type", Obj.str "command"), ("value", Obj.str "wave")]
      (Obj.str "wave") rfl rfl (by decide)).trans (by rfl)

/-- C8: a `keypress`/`key` action with a nonempty key emits, after
stripping and upper-casing the key and lower-casing the state: for state
`press` the `down` payload followed by the `up` payload; for `down`/`hold`
only `:down`; for `up`/`release` only `:up`; and any other state is a
`ValueError`. -/
theorem keypress_translation (ty k st : String)
    (hty : ty = "key" ∨ ty = "keypress")
    (hk : pyStrip k ≠ "") :
    (pyLower st = "press" →
      translate defaultTranslator ⟨ty, [("key", Obj.str k), ("state", Obj.str st)], 0⟩
        = Except.ok ["KEY:" ++ pyUpper (pyStrip k) ++ ":down",
                     "KEY:" ++ pyUpper (pyStrip k) ++ ":up"])
    ∧ (pyLower st = "down" ∨ pyLower st = "hold" →
      translate defaultTranslator ⟨ty, [("key", Obj.str k), ("state", Obj.str st)], 0⟩
        = Except.ok ["KEY:" ++ pyUpper (pyStrip k) ++ ":down"])
    ∧ (pyLower st = "up" ∨ pyLower st = "release" →
      translate defaultTranslator ⟨ty, [("key", Obj.str k), ("state", Obj.str st)], 0⟩
        = Except.ok ["KEY:" ++ pyUpper (pyStrip k) ++ ":up"])
    ∧ (pyLower st ≠ "press" → pyLower st ≠ "down" → pyLower st ≠ "hold" →
       pyLower st ≠ "up" → pyLower st ≠ "release" →
      translate defaultTranslator ⟨ty, [("key", Obj.str k), ("state", Obj.str st)], 0⟩
        = Except.error ("Nieobslugiwany stan klawisza: " ++ pyLower st)) := by
  have hkey : pyStrip (pyStr (dictGetD [("key", Obj.str k), ("state", Obj.str st)] "key"
      (Obj.str ""))) = pyStrip k := by
    simp [dictGetD, assocGet, pyStr]
  have hstate : pyLower (pyStr (dictGetD [("key", Obj.str k), ("state", Obj.str st)] "state"
      (Obj.str "press"))) = pyLower st := by
    simp [dictGetD, assocGet, pyStr]
  rcases hty with h | h <;> subst h <;>
    refine ⟨?_, ?_, ?_, ?_⟩ <;>
    simp only [translate, defaultTranslator, hkey, hstate, hk] <;>
    [skip; (intro hs; rcases hs with hs | hs); (intro hs; rcases hs with hs | hs);
     (intro h1 h2 h3 h4 h5); skip; (intro hs; rcases hs with hs | hs);
     (intro hs; rcases hs with hs | hs); (intro h1 h2 h3 h4 h5)] <;>
    first
      | (intro hs; simp [hs])
      | simp [hs]
      | simp [h1, h2, h3, h4, h5]

/-- C8 witness: a `keypress` of the key `f` in state `press` yields
exactly `["KEY:F:down", "KEY:F:up"]`, in that order. -/
theorem keypress_translation_witness :
    translate defaultTranslator ⟨"keypress", [("key", Obj.str "f"), ("state", Obj.str "press")], 0⟩
      = Except.ok ["KEY:F:down", "KEY:F:up"] := by
  have h := (keypress_translation "keypress" "f" "press" (Or.inr rfl) (by decide)).1 (by rfl)
  exact h

/-- C2: the occurrence-counting wait succeeds as soon as the cumulative
match count across the polls reaches the required occurrences and returns
the match count: a first poll already holding enough matches succeeds
immediately with its count; two polls that each contribute one match
satisfy `occurrences = 2` with count 2; and a window whose only poll
holds fewer matches than required times out with a non-match and the
partial count. -/
theorem wait_for_occurrences :
    (∀ (p : List Char) (occ off : Nat) (c : List Char) (rest : List (List Char)),
        occ ≤ countOcc p (c.drop off) →
        waitForOcc p true occ off (c :: rest) = (true, countOcc p (c.drop off)))
    ∧ (∀ (p base c1 c2 : List Char),
        countOcc p c1 = 1 → countOcc p c2 = 1 →
        waitForOcc p true 2 base.length [base ++ c1, base ++ c1 ++ c2] = (true, 2))
    ∧ (∀ (p : List Char) (occ : Nat) (base added : List Char),
        countOcc p added < occ →
        waitForOcc p true occ base.length [base ++ added] = (false, countOcc p added)) := by
  refine ⟨?_, ?_, ?_⟩
  · intro p occ off c rest h
    simp [waitForOcc, waitForOccGo, h]
  · intro p base c1 c2 h1 h2
    have hd1 : (base ++ c1).drop base.length = c1 := by
      simp [List.drop_left]
    have hd2 : (base ++ c1 ++ c2).drop (base ++ c1).length = c2 := by
      simp [List.drop_left]
    simp only [waitForOcc, waitForOccGo, hd1, h1]
    norm_num
    simp only [waitForOccGo, hd2, h2]
    norm_num
  · intro p occ base added h
    have hd : (base ++ added).drop base.length = added := by
      simp [List.drop_left]
    simp only [waitForOcc, waitForOccGo, hd, if_true]
    have hocc : ¬ occ ≤ 0 + countOcc p added := by omega
    rw [if_neg hocc]
    norm_num

/-- C2 witness: a log gaining exactly two matching lines after the mark
satisfies `occurrences = 2` with match count 2; with only one matching
line the wait times out with the partial count 1. -/
theorem wait_for_occurrences_witness :
    waitForOcc "connected".data true 2 "old\n".data.length
      ["old\n".data ++ "Player connected\n".data,
       "old\n".data ++ "Player connected\n".data ++ "Another connected\n".data]
      = (true, 2)
    ∧ waitForOcc "connected".data true 2 "old\n".data.length
        ["old\n".data ++ "Player connected\n".data] = (false, 1) := by
  constructor
  · exact wait_for_occurrences.2.1 "connected".data "old\n".data
      "Player connected\n".data "Another connected\n".data (by decide) (by decide)
  · have h := wait_for_occurrences.2.2 "connected".data 2 "old\n".data
      "Player connected\n".data (by decide)
    exact h.trans (by decide)

/-- C4: the per-client loop gives every selected client its
connect/execute/disconnect turn and a result entry regardless of the
other clients' outcomes; a client whose `execute_script` raises or
returns null is captured as a structured run failure of category
`client`, and the recorded failures are exactly those of the failing
clients. -/
theorem client_errors_do_not_abort (clients : List ClientBehaviorM) :
    ((runOnClientsM clients).1).map (fun r => r.clientName) = clients.map (fun c => c.name)
    ∧ (runOnClientsM clients).2.1 = clients.filterMap clientFailure
    ∧ (∀ f ∈ (runOnClientsM clients).2.1, f.category = "client")
    ∧ (∀ cl ∈ clients, ClientEv.connect cl.name ∈ (runOnClientsM clients).2.2
        ∧ ClientEv.disconnect cl.name ∈ (runOnClientsM clients).2.2)
    ∧ (∀ (cl : ClientBehaviorM) (msg : String), cl.execResult = Except.error msg →
        clientFailure cl = some ⟨"client", cl.name, msg⟩)
    ∧ (∀ cl : ClientBehaviorM, cl.execResult = Except.ok Option.none →
        clientFailure cl = some ⟨"client", cl.name, "execute_script returned no log"⟩) := by
  have hcat : ∀ cl : ClientBehaviorM, ∀ f, clientFailure cl = some f → f.category = "client" := by
    intro cl f h
    cases hres : cl.execResult with
    | error msg => rw [clientFailure, hres] at h; injection h with h; subst h; rfl
    | ok l =>
        cases l with
        | none => rw [clientFailure, hres] at h; injection h with h; subst h; rfl
        | some v => rw [clientFailure, hres] at h; simp at h
  refine ⟨?_, ?_, ?_, ?_, ?_, ?_⟩
  · induction clients with
    | nil => rfl
    | cons cl rest ih => simp [runOnClientsM, ih]
  · induction clients with
    | nil => rfl
    | cons cl rest ih =>
        simp only [runOnClientsM, List.filterMap_cons]
        cases h : clientFailure cl <;> simp [h, ih]
  · induction clients with
    | nil => intro f h; simp [runOnClientsM] at h
    | cons cl rest ih =>
        intro f hf
        simp only [runOnClientsM, List.mem_append] at hf
        rcases hf with hf | hf
        · rcases Option.mem_toList.mp hf with h
          exact hcat cl f h
        · exact ih f hf
  · induction clients with
    | nil => intro cl h; simp at h
    | cons cl0 rest ih =>
        intro cl hcl
        rcases List.mem_cons.mp hcl with h | h
        · subst h; constructor <;> simp [runOnClientsM]
        · have := ih cl h
          constructor <;> simp [runOnClientsM, this.1, this.2]
  · intro cl msg h; rw [clientFailure, h]
  · intro cl h; rw [clientFailure, h]

/-- C4 witness: of two selected clients where the first raises, both get
their turns and results, and exactly one failure of category `client` is
recorded for the raising client. -/
theorem client_errors_do_not_abort_witness :
    ((runOnClientsM [⟨"alpha", Except.error "boom"⟩, ⟨"beta", Except.ok (some 1)⟩]).1).map
        (fun r => r.clientName) = ["alpha", "beta"]
    ∧ (runOnClientsM [⟨"alpha", Except.error "boom"⟩, ⟨"beta", Except.ok (some 1)⟩]).2.1
        = [⟨"client", "alpha", "boom"⟩] := by
  have h := client_errors_do_not_abort [⟨"alpha", Except.error "boom"⟩, ⟨"beta", Except.ok (some 1)⟩]
  exact ⟨h.1.trans (by rfl), h.2.1.trans (by rfl)⟩

/-- C1 helper: the retry loop records every attempt it makes, tagged with
consecutive attempt indices starting from the first attempt's index —
no attempt is discarded. -/
theorem retryAttempts_records_all (script : String) (it : Nat) (g : Rat) (out : Nat → Bool) :
    ∀ (r a : Nat),
      ((retryAttempts script it g out a r).1).map (fun x => x.attemptIndex)
        = List.range' a ((retryAttempts script it g out a r).1).length := by
  intro r
  induction r with
  | zero => intro a; simp [retryAttempts]
  | succ r ih =>
      intro a
      by_cases hok : out a
      · simp [retryAttempts, hok]
      · simp only [retryAttempts, hok, Bool.false_eq_true, if_false, List.map_cons,
          List.length_cons]
        rw [List.range'_succ]
        simp [ih (a + 1)]

/-- C1: a suite context whose run fails its first attempt and succeeds on
the second, run with `max_retries ≥ 1`, is re-run after a grace-period
sleep, and both attempts are recorded in order as separate results tagged
with their attempt indices — the first unsuccessful with attempt index 1,
the second successful with attempt index 2; in general every attempt the
retry loop makes is kept, with consecutive attempt indices. -/
theorem run_suite_retry_records_attempts (ctx : SuiteCtxM) (outcome : Nat → Nat → Bool)
    (hen : ctx.enabled = true) (hiter : ctx.iterations = 1)
    (hr : 1 ≤ ctx.maxRetries)
    (h1 : outcome 0 1 = false) (h2 : outcome 0 2 = true) :
    (runSuiteM [(ctx, outcome)]).1
      = [⟨ctx.script, 0, 1, false⟩, ⟨ctx.script, 0, 2, true⟩]
    ∧ SuiteEv.sleepGrace ctx.gracePeriod ∈ (runSuiteM [(ctx, outcome)]).2
    ∧ (∀ (script : String) (it : Nat) (g : Rat) (out : Nat → Bool) (r a : Nat),
        ((retryAttempts script it g out a r).1).map (fun x => x.attemptIndex)
          = List.range' a ((retryAttempts script it g out a r).1).length) := by
  obtain ⟨r, hmr⟩ : ∃ r, ctx.maxRetries = r + 1 := ⟨ctx.maxRetries - 1, by omega⟩
  have hretry : retryAttempts ctx.script 0 ctx.gracePeriod (outcome 0) 1 ctx.maxRetries
      = ([⟨ctx.script, 0, 1, false⟩, ⟨ctx.script, 0, 2, true⟩],
         [SuiteEv.attemptRun ctx.script 0 1, SuiteEv.sleepGrace ctx.gracePeriod,
          SuiteEv.attemptRun ctx.script 0 2]) := by
    rw [hmr]
    cases r with
    | zero => simp [retryAttempts, h1, h2]
    | succ r2 => simp [retryAttempts, h1, h2]
  have hiters : runIters ctx outcome 0 (max 1 ctx.iterations)
      = ([⟨ctx.script, 0, 1, false⟩, ⟨ctx.script, 0, 2, true⟩],
         [SuiteEv.attemptRun ctx.script 0 1, SuiteEv.sleepGrace ctx.gracePeriod,
          SuiteEv.attemptRun ctx.script 0 2], false) := by
    rw [hiter]
    simp [runIters, hretry]
  refine ⟨?_, ?_, fun script it g out r a => retryAttempts_records_all script it g out r a⟩
  · simp [runSuiteM, runCtxM, hen, hiters]
  · simp [runSuiteM, runCtxM, hen, hiters]

/-- C1 witness: a concrete flaky context (`max_retries = 2`, succeeding
from attempt 2 on) records the failed first attempt and the successful
second attempt, in order. -/
theorem run_suite_retry_records_attempts_witness :
    (runSuiteM [(⟨"Retry", 1, 2, mkRat 3 4, 0, 0, false, true⟩,
        fun _ attempt => decide (2 ≤ attempt))]).1
      = [⟨"Retry", 0, 1, false⟩, ⟨"Retry", 0, 2, true⟩]
    ∧ SuiteEv.sleepGrace (mkRat 3 4)
        ∈ (runSuiteM [(⟨"Retry", 1, 2, mkRat 3 4, 0, 0, false, true⟩,
            fun _ attempt => decide (2 ≤ attempt))]).2 := by
  have h := run_suite_retry_records_attempts ⟨"Retry", 1, 2, mkRat 3 4, 0, 0, false, true⟩
    (fun _ attempt => decide (2 ≤ attempt)) rfl rfl (by decide) (by decide) (by decide)
  exact ⟨h.1, h.2.1⟩

/-- C6 support: adequate fuel makes the substitution scan fuel
independent. -/
theorem substCharsF_fuel (vars : List (String × Obj)) :
    ∀ (n f1 f2 : Nat) (l : List Char), l.length ≤ n → l.length ≤ f1 → l.length ≤ f2 →
      substCharsF vars f1 l = substCharsF vars f2 l := by
  intro n
  induction n with
  | zero =>
      intro f1 f2 l hn _ _
      have : l = [] := by
        cases l with
        | nil => rfl
        | cons c cs => simp at hn
      subst this
      cases f1 <;> cases f2 <;> rfl
  | succ n ih =>
      intro f1 f2 l hn h1 h2
      cases l with
      | nil => cases f1 <;> cases f2 <;> rfl
      | cons c cs =>
          match f1, f2 with
          | g1 + 1, g2 + 1 =>
              simp only [substCharsF]
              cases hm : matchAt (c :: cs) with
              | none =>
                  have := ih g1 g2 cs (by simpa using hn) (by simpa using h1) (by simpa using h2)
                  simp [this]
              | some kr =>
                  obtain ⟨key, rest⟩ := kr
                  have hlen := matchAt_length hm
                  have := ih g1 g2 rest (by simp at hn hlen ⊢; omega)
                    (by simp at h1 hlen ⊢; omega) (by simp at h2 hlen ⊢; omega)
                  simp [this]

/-- C6 support: one unfolding step of the scan. -/
theorem substChars_cons (vars : List (String × Obj)) (c : Char) (cs : List Char) :
    substChars vars (c :: cs)
      = match matchAt (c :: cs) with
        | some (key, rest) =>
            (pyStr ((assocGet vars key).getD (Obj.str ""))).data ++ substChars vars rest
        | Option.none => c :: substChars vars cs := by
  show substCharsF vars (cs.length + 1) (c :: cs) = _
  simp only [substCharsF]
  cases hm : matchAt (c :: cs) with
  | none => rfl
  | some kr =>
      obtain ⟨key, rest⟩ := kr
      have hlen := matchAt_length hm
      have heq : substCharsF vars cs.length rest = substCharsF vars rest.length rest :=
        substCharsF_fuel vars cs.length cs.length rest.length rest
          (by simp at hlen ⊢; omega) (by simp at hlen ⊢; omega) (le_refl _)
      show _ ++ substCharsF vars cs.length rest = _ ++ substChars vars rest
      rw [heq]
      rfl

/-- C6 support: a non-brace head never starts a placeholder match. -/
theorem matchAt_cons_none (c : Char) (cs : List Char) (h : c ≠ braceOpen) :
    matchAt (c :: cs) = Option.none := by
  cases cs with
  | nil => rfl
  | cons c2 t => simp [matchAt, h]

/-- C6 support: brace-free text is scanned through unchanged. -/
theorem substChars_append_front (vars : List (String × Obj)) (pre t : List Char)
    (hpre : ∀ c ∈ pre, c ≠ braceOpen) :
    substChars vars (pre ++ t) = pre ++ substChars vars t := by
  induction pre with
  | nil => rfl
  | cons c cs ih =>
      have hc : c ≠ braceOpen := hpre c (by simp)
      have hrest : ∀ a ∈ cs, a ≠ braceOpen := fun a ha => hpre a (by simp [ha])
      rw [List.cons_append, substChars_cons, matchAt_cons_none c (cs ++ t) hc, ih hrest]
      rfl

/-- C6 support: identifier characters are not whitespace. -/
theorem ident_not_space (c : Char) (h : isIdentChar c = true) : isSpaceChar c = false := by
  by_contra hcon
  have hsp : isSpaceChar c = true := by
    cases hx : isSpaceChar c with
    | false => exact absurd hx hcon
    | true => rfl
  simp only [isSpaceChar, Bool.or_eq_true, beq_iff_eq] at hsp
  rcases hsp with ((((h1 | h1) | h1) | h1) | h1) | h1 <;> subst h1 <;> simp [isIdentChar] at h

/-- C6 support: a run of satisfying characters is taken whole when the
next character fails the scan predicate. -/
theorem takeWhile_all_append (p : Char → Bool) (l : List Char) (b : Char) (r : List Char)
    (hl : ∀ a ∈ l, p a = true) (hb : p b = false) :
    ((l ++ b :: r).takeWhile p) = l := by
  induction l with
  | nil => simp [List.takeWhile_cons, hb]
  | cons c cs ih =>
      have hc : p c = true := hl c (by simp)
      simp only [List.cons_append, List.takeWhile_cons, hc, if_true]
      rw [ih (fun a ha => hl a (by simp [ha]))]

/-- C6 support: dropping a run of satisfying characters stops at the
first failing character. -/
theorem dropWhile_all_append (p : Char → Bool) (l : List Char) (b : Char) (r : List Char)
    (hl : ∀ a ∈ l, p a = true) (hb : p b = false) :
    ((l ++ b :: r).dropWhile p) = b :: r := by
  induction l with
  | nil => simp [List.dropWhile_cons, hb]
  | cons c cs ih =>
      have hc : p c = true := hl c (by simp)
      simp only [List.cons_append, List.dropWhile_cons, hc, if_true]
      exact ih (fun a ha => hl a (by simp [ha]))

/-- C6 support: the scanner recognises a placeholder `\x7b\x7bx\x7d\x7d`
at the head of the text and captures the identifier. -/
theorem matchAt_placeholder (x post : List Char) (hx : x ≠ [])
    (hid : ∀ c ∈ x, isIdentChar c = true) :
    matchAt (braceOpen :: braceOpen :: (x ++ braceClose :: braceClose :: post))
      = some (String.mk x, post) := by
  obtain ⟨a, x', rfl⟩ : ∃ a x', x = a :: x' := by
    cases x with
    | nil => exact absurd rfl hx
    | cons a x' => exact ⟨a, x', rfl⟩
  have hclose_id : isIdentChar braceClose = false := by decide
  have hclose_sp : isSpaceChar braceClose = false := by decide
  have hdrop1 : ((a :: x') ++ braceClose :: braceClose :: post).dropWhile isSpaceChar
      = (a :: x') ++ braceClose :: braceClose :: post := by
    have ha : isSpaceChar a = false := ident_not_space a (hid a (by simp))
    simp [List.dropWhile_cons, ha]
  have htake : (((a :: x') ++ braceClose :: braceClose :: post).takeWhile isIdentChar)
      = a :: x' :=
    takeWhile_all_append isIdentChar (a :: x') braceClose (braceClose :: post) hid hclose_id
  have hdrop2 : (((a :: x') ++ braceClose :: braceClose :: post).dropWhile isIdentChar)
      = braceClose :: braceClose :: post :=
    dropWhile_all_append isIdentChar (a :: x') braceClose (braceClose :: post) hid hclose_id
  have hdrop3 : ((braceClose :: braceClose :: post).dropWhile isSpaceChar)
      = braceClose :: braceClose :: post := by
    simp [List.dropWhile_cons, hclose_sp]
  simp only [matchAt, and_self, if_true, if_pos rfl, hdrop1, htake, hdrop2, hdrop3]
  simp

/-- C6: placeholder substitution — in any string value, a
`\x7b\x7bx\x7d\x7d` marker (arbitrary brace-free text before it,
arbitrary text after it) is replaced by the stringified value bound to
`x`, or by the empty string when `x` is unbound, and the remainder is
scanned on; `_replace_placeholders` applies exactly this to every string
value, recursing structurally into nested dicts and lists. -/
theorem placeholder_substitution (vars : List (String × Obj)) (x : String)
    (pre post : List Char)
    (hx : x.data ≠ []) (hid : ∀ c ∈ x.data, isIdentChar c = true)
    (hpre : ∀ c ∈ pre, c ≠ braceOpen) :
    (∀ v, assocGet vars x = some v →
      substChars vars
          (pre ++ braceOpen :: braceOpen :: (x.data ++ braceClose :: braceClose :: post))
        = pre ++ (pyStr v).data ++ substChars vars post)
    ∧ (assocGet vars x = Option.none →
      substChars vars
          (pre ++ braceOpen :: braceOpen :: (x.data ++ braceClose :: braceClose :: post))
        = pre ++ substChars vars post)
    ∧ (∀ s, replacePlaceholders (Obj.str s) vars = Obj.str (substString vars s))
    ∧ (∀ kvs, replacePlaceholders (Obj.dict kvs) vars
        = Obj.dict (kvs.map (fun p => (p.1, replacePlaceholders p.2 vars))))
    ∧ (∀ xs, replacePlaceholders (Obj.list xs) vars
        = Obj.list (xs.map (fun o => replacePlaceholders o vars))) := by
  have hmk : String.mk x.data = x := rfl
  have hmatch := matchAt_placeholder x.data post hx hid
  have hhead : ∀ repl,
      (assocGet vars x).getD (Obj.str "") = repl →
      substChars vars (braceOpen :: braceOpen :: (x.data ++ braceClose :: braceClose :: post))
        = (pyStr repl).data ++ substChars vars post := by
    intro repl hrepl
    rw [substChars_cons, hmatch]
    show (pyStr ((assocGet vars x).getD (Obj.str ""))).data ++ substChars vars post = _
    rw [hrepl]
  refine ⟨?_, ?_, ?_, ?_, ?_⟩
  · intro v hv
    rw [substChars_append_front vars pre _ hpre, hhead v (by rw [hv]; rfl)]
    simp
  · intro hv
    rw [substChars_append_front vars pre _ hpre, hhead (Obj.str "") (by rw [hv]; rfl)]
    simp [pyStr]
  · intro s; rfl
  · intro kvs
    simp only [replacePlaceholders]
    induction kvs with
    | nil => rfl
    | cons kv rest ih =>
        simp only [replacePlaceholdersKVs, List.map_cons] at ih ⊢
        simp only [Obj.dict.injEq] at ih
        simp [ih]
  · intro xs
    simp only [replacePlaceholders]
    induction xs with
    | nil => rfl
    | cons o rest ih =>
        simp only [replacePlaceholdersList, List.map_cons] at ih ⊢
        simp only [Obj.list.injEq] at ih
        simp [ih]

/-- C6 witness: with `x` bound to `VAL`, the step text `use \x7b\x7bx\x7d\x7d!`
compiles to `use VAL!` (marker gone, literal value in place); unbound
placeholders are replaced by the empty string. -/
theorem placeholder_substitution_witness :
    substString [("x", Obj.str "VAL")] "use \x7b\x7bx\x7d\x7d!" = "use VAL!"
    ∧ substString [] "use \x7b\x7bx\x7d\x7d!" = "use !" := by
  have h := placeholder_substitution [("x", Obj.str "VAL")] "x"
    "use ".data "!".data (by decide) (by decide) (by decide)
  have h2 := placeholder_substitution [] "x" "use ".data "!".data
    (by decide) (by decide) (by decide)
  constructor
  · have := h.1 (Obj.str "VAL") rfl
    show String.mk (substChars [("x", Obj.str "VAL")]
      ("use ".data ++ braceOpen :: braceOpen :: ("x".data ++ braceClose :: braceClose :: "!".data))) = "use VAL!"
    rw [this]
    rfl
  · have := h2.2.1 rfl
    show String.mk (substChars []
      ("use ".data ++ braceOpen :: braceOpen :: ("x".data ++ braceClose :: braceClose :: "!".data))) = "use !"
    rw [this]
    rfl

/-- C5 support: brace-free text survives substitution unchanged. -/
theorem substString_of_noBrace (vars : List (String × Obj)) (s : String)
    (h : noBrace s) : substString vars s = s := by
  show String.mk (substChars vars s.data) = s
  have h2 := substChars_append_front vars s.data [] h
  simp only [List.append_nil] at h2
  rw [h2]
  show String.mk (s.data ++ substCharsF vars 0 []) = s
  simp [substCharsF]

/-- C5 support: a macro-invocation step of a brace-free name is a fixed
point of placeholder substitution. -/
theorem replacePlaceholders_invStep (b : String) (hb : noBrace b)
    (ctx : List (String × Obj)) :
    replacePlaceholders (invStep b) ctx = invStep b := by
  have hmac : substString ctx "macro" = "macro" :=
    substString_of_noBrace ctx "macro" (by decide)
  have hb2 : substString ctx b = b := substString_of_noBrace ctx b hb
  simp [invStep, replacePlaceholders, replacePlaceholdersKVs, hmac, hb2]

/-- C5 support: compiling a macro-invocation step looks the macro up and
expands it with no arguments. -/
theorem compileStep_invStep (f : Nat) (c : ScenarioCompilerM) (a : String)
    (stack : List String) (mac : MacroDef) (ha : a ≠ "")
    (hm : macroLookup c.macros a = some mac) :
    compileStep (f + 1) c (invStep a) stack = expandMacroDef f c mac Obj.none stack := by
  simp [compileStep, invStep, normaliseStep, dictGet, dictGetD, assocGet, dictHas,
    pyOr, pyTruthy, pyStr, ha, hm]

/-- C5 support: expanding a macro whose name is already on the expansion
stack is the descriptive cycle error, whatever the arguments, fuel and
variable scope. -/
theorem expandMacroDef_cycle (f : Nat) (c : ScenarioCompilerM) (mac : MacroDef)
    (args : Obj) (stack : List String) (h : mac.name ∈ stack) :
    expandMacroDef f c mac args stack = Except.error (CompileErr.cycle mac.name) := by
  simp [expandMacroDef, h]

/-- C5 support: expanding a fresh macro pushes its name and compiles the
substituted body. -/
theorem expandMacroDef_push (f : Nat) (c : ScenarioCompilerM) (mac : MacroDef)
    (args : Obj) (stack : List String) (h : mac.name ∉ stack) :
    expandMacroDef f c mac args stack
      = compileStepList f c
          (mac.steps.map (fun st =>
            replacePlaceholders st (dictUpdate c.vars (argumentMapping mac args))))
          (stack ++ [mac.name]) := by
  simp [expandMacroDef, h]

/-- C5 support: an error in the first step aborts the whole step-list
compilation with that error (no partial output). -/
theorem compileStepList_cons_error (f : Nat) (c : ScenarioCompilerM) (st : Obj)
    (rest : List Obj) (stack : List String) (e : CompileErr)
    (h : compileStep f c st stack = Except.error e) :
    compileStepList f c (st :: rest) stack = Except.error e := by
  simp [compileStepList, h]

/-- C5 support: walking a call chain whose far end is already on the
stack (or is the entry macro itself) runs into the expansion guard and
yields a cycle error. -/
theorem cycle_detection_aux (c : ScenarioCompilerM) :
    ∀ (ms : List String) (a : String) (s : List String) (f : Nat),
      List.Chain (linksTo c) a ms →
      hasMac c a →
      ms.length + 1 ≤ f →
      (a ∈ s ∨ ∃ b, ms.getLast? = some b ∧ (b ∈ s ∨ b = a)) →
      ∃ n, compileStep f c (invStep a) s = Except.error (CompileErr.cycle n) := by
  intro ms
  induction ms with
  | nil =>
      intro a s f hchain hmac hf hpos
      obtain ⟨ha, mac, hm, hname⟩ := hmac
      have has : a ∈ s := by
        rcases hpos with h | ⟨b, hb, _⟩
        · exact h
        · simp at hb
      obtain ⟨g, rfl⟩ : ∃ g, f = g + 1 := ⟨f - 1, by omega⟩
      refine ⟨a, ?_⟩
      rw [compileStep_invStep g c a s mac ha hm]
      rw [expandMacroDef_cycle g c mac Obj.none s (by rw [hname]; exact has), hname]
  | cons b rest ih =>
      intro a s f hchain hmac hf hpos
      rcases List.chain_cons.mp hchain with ⟨hab, hchain2⟩
      obtain ⟨hmacb, hnob, mac, hm, hname, rest2, hsteps⟩ := hab
      have ha : a ≠ "" := hmac.1
      by_cases has : a ∈ s
      · obtain ⟨g, rfl⟩ : ∃ g, f = g + 1 := ⟨f - 1, by omega⟩
        refine ⟨a, ?_⟩
        rw [compileStep_invStep g c a s mac ha hm]
        rw [expandMacroDef_cycle g c mac Obj.none s (by rw [hname]; exact has), hname]
      · obtain ⟨g, rfl⟩ : ∃ g, f = g + 1 := ⟨f - 1, by omega⟩
        rw [compileStep_invStep g c a s mac ha hm]
        rw [expandMacroDef_push g c mac Obj.none s (by rw [hname]; exact has)]
        rw [hsteps]
        simp only [List.map_cons]
        rw [replacePlaceholders_invStep b hnob]
        have hnext : ∃ n, compileStep g c (invStep b) (s ++ [mac.name])
            = Except.error (CompileErr.cycle n) := by
          apply ih b (s ++ [mac.name]) g hchain2 hmacb (by simp at hf ⊢; omega)
          cases rest with
          | nil =>
              rcases hpos with h | ⟨lb, hlb, hin⟩
              · exact absurd h has
              · left
                have hlb2 : b = lb := by simpa using hlb
                subst hlb2
                rcases hin with h | h
                · exact List.mem_append_left _ h
                · subst h
                  rw [hname]
                  exact List.mem_append_right _ (by simp)
          | cons r0 rtail =>
              rcases hpos with h | ⟨lb, hlb, hin⟩
              · exact absurd h has
              · right
                refine ⟨lb, by simpa using hlb, ?_⟩
                left
                rcases hin with h | h
                · exact List.mem_append_left _ h
                · subst h
                  rw [hname]
                  exact List.mem_append_right _ (by simp)
        obtain ⟨n, hn⟩ := hnext
        exact ⟨n, compileStepList_cons_error g c (invStep b) _ (s ++ [mac.name])
          (CompileErr.cycle n) hn⟩

/-- C5 support: the last element of a nonempty chain is reached by a
link. -/
theorem chain_getLast_rel {α : Type} {R : α → α → Prop} :
    ∀ (l : List α) (a b : α), List.Chain R a l → l.getLast? = some b → ∃ x, R x b := by
  intro l
  induction l with
  | nil => intro a b _ hb; simp at hb
  | cons y t ih =>
      intro a b hchain hb
      rcases List.chain_cons.mp hchain with ⟨hay, hchain2⟩
      cases t with
      | nil =>
          have hyb : y = b := by simpa using hb
          subst hyb
          exact ⟨a, hay⟩
      | cons y2 t2 =>
          exact ih y b hchain2 (by simpa using hb)

/-- C5: in a macro table where some macro's expansion path transitively
reaches itself — a chain of head-position invocations from `m` back to
`m` — compiling a step that invokes that macro fails with a descriptive
cycle error instead of looping, and the compilation of the whole step
list produces no output at all (the error is the entire result); and
directly, expanding any macro already on the expansion stack is the cycle
error. -/
theorem macro_cycle_detected (c : ScenarioCompilerM) (m : String) (ms : List String)
    (f : Nat)
    (hchain : List.Chain (linksTo c) m ms)
    (hlast : ms.getLast? = some m)
    (hf : ms.length + 1 ≤ f) :
    (∃ n, compileStep f c (invStep m) [] = Except.error (CompileErr.cycle n)
       ∧ compileScenario f c [invStep m] = Except.error (CompileErr.cycle n))
    ∧ (∀ (f2 : Nat) (mac : MacroDef) (args : Obj) (stack : List String),
        mac.name ∈ stack →
        expandMacroDef f2 c mac args stack = Except.error (CompileErr.cycle mac.name)) := by
  constructor
  · have hmacm : hasMac c m := by
      obtain ⟨x, hx⟩ := chain_getLast_rel ms m m hchain hlast
      exact hx.1
    have hmain := cycle_detection_aux c ms m [] f hchain hmacm hf
      (Or.inr ⟨m, hlast, Or.inr rfl⟩)
    obtain ⟨n, hn⟩ := hmain
    refine ⟨n, hn, ?_⟩
    obtain ⟨g, rfl⟩ : ∃ g, f = g + 1 := ⟨f - 1, by omega⟩
    show compileStepList (g + 1) c [invStep m] [] = Except.error (CompileErr.cycle n)
    exact compileStepList_cons_error (g + 1) c (invStep m) [] [] (CompileErr.cycle n) hn
  · intro f2 mac args stack h
    exact expandMacroDef_cycle f2 c mac args stack h

/-- C5 witness: the one-macro table in which `a` invokes itself: the
compilation of a step invoking `a` is exactly the cycle error for `a`,
with no partial output. -/
theorem macro_cycle_detected_witness :
    ∃ n, compileStep 2 ⟨[("a", ⟨"a", [invStep "a"], [], []⟩)], []⟩ (invStep "a") []
        = Except.error (CompileErr.cycle n)
      ∧ compileScenario 2 ⟨[("a", ⟨"a", [invStep "a"], [], []⟩)], []⟩ [invStep "a"]
        = Except.error (CompileErr.cycle n) := by
  have hlink : linksTo ⟨[("a", ⟨"a", [invStep "a"], [], []⟩)], []⟩ "a" "a" := by
    refine ⟨⟨by decide, ⟨"a", [invStep "a"], [], []⟩, ?_, rfl⟩, ?_, ⟨"a", [invStep "a"], [], []⟩,
      ?_, rfl, [], rfl⟩
    · simp [macroLookup]
    · intro ch hch
      simp at hch
      subst hch
      decide
    · simp [macroLookup]
  have h := macro_cycle_detected ⟨[("a", ⟨"a", [invStep "a"], [], []⟩)], []⟩ "a" ["a"] 2
    (List.chain_cons.mpr ⟨hlink, List.Chain.nil⟩) rfl (by decide)
  exact h.1

end Samp
